import Mathlib

/-!
Verification development for the EchoForge CloudSentinel agent
(`src/agents/cloud_sentinel.py`).

The agent is a thin, sequential orchestration layer over three remote
services (service-usage, IAM, secret-store).  Every remote call is modelled
explicitly: a fallible remote call is a value of `Except String α` (the
`error` case carries the exception message), and the observable effect of a
method is returned alongside its boolean result as an explicit trace (the
list of policies written, whether an enable request was issued, the payloads
of secret versions added).  The pure decision logic — status aggregation,
binding scans, principal discovery, identifier derivation — is translated
function by function from the Python source.

Python string primitives used by the source (`str.startswith`,
`str.replace`) are modelled over the character data of Lean strings:
`str_starts_with` is a prefix test and `string_replace` is the
left-to-right, non-overlapping replace-all of CPython, implemented with a
character-count fuel so that it evaluates by kernel reduction.
-/

namespace CloudSentinel

/-- Python `s.startswith(pre)`: `pre` is a prefix of `s`, on character data. -/
def str_starts_with (s pre : String) : Bool :=
  pre.data.isPrefixOf s.data

/-- Left-to-right non-overlapping replace-all on character lists, as CPython
`str.replace` scans: at each position, if the (non-empty) pattern
`p :: ps` matches here, emit the replacement and skip past the match,
otherwise emit one character and advance.  `fuel` bounds the recursion by
the length of the scanned list, so the definition is structural and
reduces inside the kernel. -/
def replaceFuel (p : Char) (ps repl : List Char) : Nat → List Char → List Char
  | 0, l => l
  | _ + 1, [] => []
  | fuel + 1, c :: rest =>
    if (p :: ps).isPrefixOf (c :: rest) then
      repl ++ replaceFuel p ps repl fuel (rest.drop ps.length)
    else
      c :: replaceFuel p ps repl fuel rest

/-- Python `s.replace(pat, repl)`: replaces every non-overlapping occurrence
of `pat` in `s`, scanning left to right.  An empty pattern leaves the
string unchanged (the source only ever replaces non-empty patterns). -/
def string_replace (s pat repl : String) : String :=
  match pat.data with
  | [] => s
  | p :: ps => { data := replaceFuel p ps repl.data s.data.length s.data }

/-- One IAM binding: a role and the members holding it
(`policy.bindings[i]` in the source). -/
structure Binding where
  role : String
  members : List String
deriving DecidableEq, Repr

/-- A whole-project IAM policy snapshot as returned by `get_iam_policy`. -/
structure IAMPolicy where
  bindings : List Binding
deriving DecidableEq, Repr

/-- The member string the source builds for a service account:
`f"serviceAccount:{sa_email}"`. -/
def memberFor (sa_email : String) : String :=
  "serviceAccount:" ++ sa_email

/-- `CloudSentinel._has_role`: scan the policy bindings for one whose role
matches and whose member list contains `serviceAccount:{sa_email}`. -/
def has_role (sa_email role : String) (policy : IAMPolicy) : Bool :=
  policy.bindings.any fun b => b.role == role && b.members.contains (memberFor sa_email)

/-- The in-place mutation loop of `ensure_role`: append `member` to the
members of the first binding whose role matches, leaving every other
binding untouched (the Python loop breaks after the first match). -/
def addMemberToFirst : List Binding → String → String → List Binding
  | [], _, _ => []
  | b :: rest, role, member =>
    if b.role == role then
      { role := b.role, members := b.members ++ [member] } :: rest
    else
      b :: addMemberToFirst rest role member

/-- `CloudSentinel.ensure_role(sa_email, role)`.  `fetch` is the outcome of
`get_iam_policy` and `write` the outcome of `set_iam_policy`; the second
component of the result is the list of whole policies passed to
`set_iam_policy`, in order (so `[]` means no write was issued).  Any
exception is caught and yields `false`. -/
def ensure_role (sa_email role : String) (fetch : Except String IAMPolicy)
    (write : Except String Unit) : Bool × List IAMPolicy :=
  match fetch with
  | Except.error _ => (false, [])
  | Except.ok policy =>
    if policy.bindings.any (fun b => b.role == role && b.members.contains (memberFor sa_email)) then
      (true, [])
    else
      let role_exists := policy.bindings.any (fun b => b.role == role)
      let new_bindings :=
        if role_exists then
          addMemberToFirst policy.bindings role (memberFor sa_email)
        else
          policy.bindings ++ [{ role := role, members := [memberFor sa_email] }]
      match write with
      | Except.ok _ => (true, [{ bindings := new_bindings }])
      | Except.error _ => (false, [{ bindings := new_bindings }])

/-- Adding an element to a Python `set`, represented as a duplicate-free
list: a member already present is not added again.  The list fixes the
first-insertion order as one canonical enumeration of the set; CPython
iterates a `set` in an unspecified (hash-salted) order, so statements
that depend on enumeration order must quantify over all permutations of
this canonical enumeration (see `validate_iam_permissions_with_order`). -/
def insertNew (l : List String) (x : String) : List String :=
  if l.contains x then l else l ++ [x]

/-- The discovery loop of `_validate_iam_permissions`: walk every binding's
member list and collect, without duplicates, the emails of members that
start with `"serviceAccount:"`, with that marker removed by
`member.replace("serviceAccount:", "")`.  The result is the discovered
set of principals listed in one canonical (first-insertion) enumeration;
its membership is exactly the source's `service_accounts` set, while the
source's iteration order over that set is unspecified. -/
def extract_service_accounts (bs : List Binding) : List String :=
  bs.foldl
    (fun acc b =>
      b.members.foldl
        (fun acc2 m =>
          if str_starts_with m "serviceAccount:" then
            insertNew acc2 (string_replace m "serviceAccount:" "")
          else
            acc2)
        acc)
    []

/-- Result pair of `_validate_iam_permissions`. -/
structure IamResults where
  valid : List String
  missing : List String
deriving DecidableEq, Repr

/-- `CloudSentinel._validate_iam_permissions`.  `fetch` is the outcome of
`get_iam_policy`; on failure the pass degrades to a single synthetic
missing entry `"validation_error: ..."` and an empty valid list.  On
success, for each discovered service account (in discovery order) and
each critical role (in list order), the entry `"{sa}:{role}"` goes to
`valid` when `has_role` holds and to `missing` otherwise — rendered here
as the flattening of the source's nested append loop, at the canonical
first-insertion enumeration of the discovered set (the source iterates
the set in an unspecified order; see
`validate_iam_permissions_with_order` for the order-explicit model). -/
def validate_iam_permissions (critical_roles : List String)
    (fetch : Except String IAMPolicy) : IamResults :=
  match fetch with
  | Except.error e => { valid := [], missing := ["validation_error: " ++ e] }
  | Except.ok policy =>
    let sas := extract_service_accounts policy.bindings
    { valid := sas.flatMap fun sa =>
        (critical_roles.filter fun role => has_role sa role policy).map
          fun role => sa ++ ":" ++ role,
      missing := sas.flatMap fun sa =>
        (critical_roles.filter fun role => !(has_role sa role policy)).map
          fun role => sa ++ ":" ++ role }

/-- The success path of `_validate_iam_permissions` with the iteration order
of the discovered principal set made explicit.  The source builds
`service_accounts = set(...)` and then runs
`for sa_email in service_accounts:`; CPython enumerates a `set` of
strings in an unspecified, hash-salted order, so the checking loop is
modelled over an arbitrary enumeration `sas` of that set — the
admissible enumerations are exactly the permutations of the canonical
`extract_service_accounts` listing.  `validate_iam_permissions` on a
fetched policy is this model applied at the canonical enumeration. -/
def validate_iam_permissions_with_order (critical_roles : List String)
    (sas : List String) (policy : IAMPolicy) : IamResults :=
  { valid := sas.flatMap fun sa =>
      (critical_roles.filter fun role => has_role sa role policy).map
        fun role => sa ++ ":" ++ role,
    missing := sas.flatMap fun sa =>
      (critical_roles.filter fun role => !(has_role sa role policy)).map
        fun role => sa ++ ":" ++ role }

/-- The `critical_roles` list fixed in `CloudSentinel.__init__`. -/
def critical_roles : List String :=
  ["roles/secretmanager.secretAccessor",
   "roles/secretmanager.secretVersionManager",
   "roles/cloudbuild.builds.builder",
   "roles/logging.logWriter",
   "roles/monitoring.metricWriter"]

/-- The `required_apis` list fixed in `CloudSentinel.__init__`. -/
def required_apis : List String :=
  ["serviceusage.googleapis.com",
   "iam.googleapis.com",
   "secretmanager.googleapis.com",
   "cloudbuild.googleapis.com",
   "cloudresourcemanager.googleapis.com",
   "logging.googleapis.com",
   "monitoring.googleapis.com"]

/-- State of a service as reported by `get_service`
(`service_usage_v1.State`). -/
inductive ServiceState
  | unspecified
  | disabled
  | enabled
deriving DecidableEq, Repr

/-- Outcome of the `get_service` call inside `ensure_api`: a service object
with a state, a raised `NotFound`, or any other raised exception. -/
inductive GetServiceOutcome
  | found (state : ServiceState)
  | notFound
  | failure (msg : String)
deriving DecidableEq, Repr

/-- Observable behaviour of one `ensure_api` call: its boolean result and
whether an `enable_service` request was issued. -/
structure ApiAttempt where
  result : Bool
  enable_requested : Bool
deriving DecidableEq, Repr

/-- `CloudSentinel.ensure_api(name)`.  `get` is the outcome of the
`get_service` probe and `enable` the outcome of `enable_service` plus the
wait on its long-running operation.  An already-enabled service returns
`true` at once with no enable request; `NotFound` (and any non-enabled
state) proceeds to the enable request; any other exception is caught by
the outer handler and yields `false`. -/
def ensure_api (get : GetServiceOutcome) (enable : Except String Unit) : ApiAttempt :=
  match get with
  | GetServiceOutcome.found ServiceState.enabled =>
    { result := true, enable_requested := false }
  | GetServiceOutcome.found _ | GetServiceOutcome.notFound =>
    match enable with
    | Except.ok _ => { result := true, enable_requested := true }
    | Except.error _ => { result := false, enable_requested := true }
  | GetServiceOutcome.failure _ =>
    { result := false, enable_requested := false }

/-- Result pair of `_ensure_required_apis`. -/
structure ApiResults where
  enabled : List String
  failed : List String
deriving DecidableEq, Repr

/-- Result pair of `_rotate_service_account_keys`. -/
structure KeyResults where
  rotated : List String
  failed : List String
deriving DecidableEq, Repr

/-- `CloudSentinel._rotate_service_account_keys`: a placeholder pass whose
body only builds the resource name and logs, so it cannot raise and both
lists stay empty. -/
def rotate_service_account_keys : KeyResults :=
  { rotated := [], failed := [] }

/-- The results dictionary returned by `ensure_environment`. -/
structure EnvReport where
  apis_enabled : List String
  apis_failed : List String
  permissions_valid : List String
  permissions_missing : List String
  keys_rotated : List String
  keys_failed : List String
  timestamp : String
  overall_status : String
  error : Option String
deriving DecidableEq, Repr

/-- The freshly initialised results dictionary of `ensure_environment`,
before any sub-pass runs. -/
def initial_report (now : String) : EnvReport :=
  { apis_enabled := [], apis_failed := [], permissions_valid := [],
    permissions_missing := [], keys_rotated := [], keys_failed := [],
    timestamp := now, overall_status := "unknown", error := none }

/-- `CloudSentinel.ensure_environment`.  The three sub-passes are modelled by
their outcomes (`Except.error e` stands for an exception with message `e`
escaping that sub-pass).  The single `try` around all three passes means
an exception keeps the fields already filled in, sets the status to
`"error"` and attaches the message; otherwise the overall status is
`"issues_found"` when any of the failure/missing lists is non-empty and
`"healthy"` when all are empty. -/
def ensure_environment (now : String)
    (api_pass : Except String ApiResults)
    (iam_pass : Except String IamResults)
    (key_pass : Except String KeyResults) : EnvReport :=
  let results := initial_report now
  match api_pass with
  | Except.error e => { results with overall_status := "error", error := some e }
  | Except.ok api_results =>
    let results := { results with
      apis_enabled := api_results.enabled, apis_failed := api_results.failed }
    match iam_pass with
    | Except.error e => { results with overall_status := "error", error := some e }
    | Except.ok iam_results =>
      let results := { results with
        permissions_valid := iam_results.valid,
        permissions_missing := iam_results.missing }
      match key_pass with
      | Except.error e => { results with overall_status := "error", error := some e }
      | Except.ok key_results =>
        let results := { results with
          keys_rotated := key_results.rotated, keys_failed := key_results.failed }
        if !results.apis_failed.isEmpty || !results.permissions_missing.isEmpty
            || !results.keys_failed.isEmpty then
          { results with overall_status := "issues_found" }
        else
          { results with overall_status := "healthy" }

/-- Outcome of the `create_secret` call inside
`_store_key_in_secret_manager`: created, raised `AlreadyExists` (caught
and tolerated), or raised any other exception. -/
inductive CreateSecretOutcome
  | created
  | alreadyExists
  | failure (msg : String)
deriving DecidableEq, Repr

/-- Observable behaviour of one `_store_key_in_secret_manager` call: its
boolean result, the secret identifier it derived, and the payloads of the
`add_secret_version` requests it issued, in order. -/
structure StoreAttempt where
  result : Bool
  secret_id : String
  version_payloads : List String
deriving DecidableEq, Repr

/-- The deterministic secret identifier the source derives from the service
account email: `f"sa-key-{sa_email.replace('@', '-').replace('.', '-')}"`. -/
def secret_id_for (sa_email : String) : String :=
  "sa-key-" ++ string_replace (string_replace sa_email "@" "-") "." "-"

/-- `CloudSentinel._store_key_in_secret_manager(sa_email, key_data)`.
`create` is the outcome of `create_secret` (an `AlreadyExists` error is
caught and treated as success) and `add_version` the outcome of
`add_secret_version`; any other exception is caught by the outer handler
and yields `false`. -/
def store_key_in_secret_manager (sa_email key_data : String)
    (create : CreateSecretOutcome) (add_version : Except String Unit) : StoreAttempt :=
  match create with
  | CreateSecretOutcome.failure _ =>
    { result := false, secret_id := secret_id_for sa_email, version_payloads := [] }
  | CreateSecretOutcome.created | CreateSecretOutcome.alreadyExists =>
    match add_version with
    | Except.ok _ =>
      { result := true, secret_id := secret_id_for sa_email,
        version_payloads := [key_data] }
    | Except.error _ =>
      { result := false, secret_id := secret_id_for sa_email,
        version_payloads := [key_data] }

/-! ## Helper lemmas -/

/-- Characterisation of `List.contains` on string lists by membership. -/
theorem string_contains_iff (l : List String) (x : String) :
    l.contains x = true ↔ x ∈ l := by
  show l.elem x = true ↔ x ∈ l
  exact List.elem_iff

/-- A character list is a boolean prefix of itself followed by anything. -/
theorem isPrefixOf_append_self (l t : List Char) : l.isPrefixOf (l ++ t) = true := by
  induction l with
  | nil => simp
  | cons c cs ih => simp [List.isPrefixOf_cons₂, ih]

/-- The modelled `startswith` holds on any string extended to the right. -/
theorem str_starts_with_append (a b : String) : str_starts_with (a ++ b) a = true := by
  simp [str_starts_with, String.data_append, isPrefixOf_append_self]

/-! ## C2, C5, C6, C7, C8, C9 -/

/-- C2: `ensure_environment` is a total function of the three sub-pass
behaviours (it never raises); when a sub-pass raises with message `e`, the
returned report carries status `"error"`, the message verbatim in its
`error` field, and the fields filled by the sub-passes that completed
before the failure. -/
theorem ensure_environment_error_handling (now e : String) (a : ApiResults)
    (i : IamResults) (ip : Except String IamResults) (kp : Except String KeyResults) :
    ensure_environment now (Except.error e) ip kp =
      { (initial_report now) with overall_status := "error", error := some e } ∧
    ensure_environment now (Except.ok a) (Except.error e) kp =
      { (initial_report now) with
          apis_enabled := a.enabled
          apis_failed := a.failed
          overall_status := "error"
          error := some e } ∧
    ensure_environment now (Except.ok a) (Except.ok i) (Except.error e) =
      { (initial_report now) with
          apis_enabled := a.enabled
          apis_failed := a.failed
          permissions_valid := i.valid
          permissions_missing := i.missing
          overall_status := "error"
          error := some e } :=
  ⟨rfl, rfl, rfl⟩

/-- C5: for a `(principal, role)` pair already present in the fetched policy
snapshot, `ensure_role` returns `true` and issues no policy write at all,
whatever the write outcome would have been. -/
theorem ensure_role_idempotent (sa_email role : String) (p : IAMPolicy)
    (w : Except String Unit) (h : has_role sa_email role p = true) :
    ensure_role sa_email role (Except.ok p) w = (true, []) := by
  simp only [has_role] at h
  simp only [ensure_role]
  rw [h]
  simp

/-- Witness for C5 at a concrete policy that already satisfies the pair. -/
theorem ensure_role_idempotent_witness :
    ensure_role "svcA" "R1"
      (Except.ok { bindings := [{ role := "R1", members := ["serviceAccount:svcA"] }] })
      (Except.ok ()) = (true, []) :=
  ensure_role_idempotent "svcA" "R1"
    { bindings := [{ role := "R1", members := ["serviceAccount:svcA"] }] }
    (Except.ok ()) (by decide)

/-- C6: when the remote facade reports the service already enabled,
`ensure_api` returns `true` and issues no enable request, whatever the
enable outcome would have been. -/
theorem ensure_api_idempotent (enable : Except String Unit) :
    ensure_api (GetServiceOutcome.found ServiceState.enabled) enable =
      { result := true, enable_requested := false } := by
  cases enable <;> rfl

/-- C7: when the policy fetch raises during `_validate_iam_permissions`, the
pass returns an empty valid list and exactly one synthetic missing entry,
prefixed with the validation-error marker. -/
theorem validate_iam_permissions_error_spec (roles : List String) (e : String) :
    validate_iam_permissions roles (Except.error e) =
      { valid := [], missing := ["validation_error: " ++ e] } ∧
    str_starts_with ("validation_error: " ++ e) "validation_error: " = true :=
  ⟨rfl, str_starts_with_append "validation_error: " e⟩

/-- C8: `_store_key_in_secret_manager` treats an already-existing secret
container the same as a freshly created one, derives the deterministic
secret identifier from the email, issues exactly one version-add carrying
the payload when creation did not hard-fail, returns `true` exactly on
full success, and is a total function (it never raises). -/
theorem store_key_in_secret_manager_spec (sa_email key_data m : String)
    (add_version : Except String Unit) :
    store_key_in_secret_manager sa_email key_data CreateSecretOutcome.alreadyExists add_version =
      store_key_in_secret_manager sa_email key_data CreateSecretOutcome.created add_version ∧
    store_key_in_secret_manager sa_email key_data CreateSecretOutcome.created (Except.ok ()) =
      { result := true, secret_id := secret_id_for sa_email,
        version_payloads := [key_data] } ∧
    store_key_in_secret_manager sa_email key_data CreateSecretOutcome.created (Except.error m) =
      { result := false, secret_id := secret_id_for sa_email,
        version_payloads := [key_data] } ∧
    store_key_in_secret_manager sa_email key_data (CreateSecretOutcome.failure m) add_version =
      { result := false, secret_id := secret_id_for sa_email, version_payloads := [] } ∧
    secret_id_for "agent@echoforge.dev" = "sa-key-agent-echoforge-dev" := by
  refine ⟨?_, rfl, rfl, ?_, by decide⟩ <;> cases add_version <;> rfl

/-- C9: the key-rotation pass is an explicit no-op returning empty rotated
and failed lists. -/
theorem rotate_service_account_keys_noop :
    rotate_service_account_keys.rotated = [] ∧ rotate_service_account_keys.failed = [] :=
  ⟨rfl, rfl⟩

/-- Reduction of the all-passes-completed case of `ensure_environment` to a
single record whose status is the OR-aggregation of the three
failure/missing lists. -/
theorem ensure_environment_ok_eq (now : String) (a : ApiResults) (i : IamResults)
    (k : KeyResults) :
    ensure_environment now (Except.ok a) (Except.ok i) (Except.ok k) =
      { apis_enabled := a.enabled
        apis_failed := a.failed
        permissions_valid := i.valid
        permissions_missing := i.missing
        keys_rotated := k.rotated
        keys_failed := k.failed
        timestamp := now
        overall_status :=
          if !a.failed.isEmpty || !i.missing.isEmpty || !k.failed.isEmpty then
            "issues_found"
          else
            "healthy"
        error := none } := by
  cases hc : (!a.failed.isEmpty || !i.missing.isEmpty || !k.failed.isEmpty) <;>
    simp only [ensure_environment, initial_report, hc, if_true, if_false,
      Bool.false_eq_true, ite_false, ite_true]

/-- The aggregation condition is false exactly when all three failure/missing
lists are empty. -/
theorem aggregation_condition_iff (a : ApiResults) (i : IamResults) (k : KeyResults) :
    (!a.failed.isEmpty || !i.missing.isEmpty || !k.failed.isEmpty) = false ↔
      (a.failed = [] ∧ i.missing = [] ∧ k.failed = []) := by
  simp [List.isEmpty_iff, and_assoc]

/-- C1: when no sub-pass raises, the report's status is `"healthy"` exactly
when all of its failure/missing lists (`apis_failed`,
`permissions_missing`, `keys_failed`) are empty and `"issues_found"`
exactly when any one of them is non-empty; when a sub-pass raises, the
status is `"error"`. -/
theorem ensure_environment_status_spec (now e : String) (a : ApiResults)
    (i : IamResults) (k : KeyResults) (ip : Except String IamResults)
    (kp : Except String KeyResults) :
    ((ensure_environment now (Except.ok a) (Except.ok i) (Except.ok k)).overall_status =
        "healthy" ↔
      ((ensure_environment now (Except.ok a) (Except.ok i) (Except.ok k)).apis_failed = [] ∧
       (ensure_environment now (Except.ok a) (Except.ok i) (Except.ok k)).permissions_missing
         = [] ∧
       (ensure_environment now (Except.ok a) (Except.ok i) (Except.ok k)).keys_failed = [])) ∧
    ((ensure_environment now (Except.ok a) (Except.ok i) (Except.ok k)).overall_status =
        "issues_found" ↔
      ¬((ensure_environment now (Except.ok a) (Except.ok i) (Except.ok k)).apis_failed = [] ∧
        (ensure_environment now (Except.ok a) (Except.ok i) (Except.ok k)).permissions_missing
          = [] ∧
        (ensure_environment now (Except.ok a) (Except.ok i) (Except.ok k)).keys_failed = [])) ∧
    (ensure_environment now (Except.error e) ip kp).overall_status = "error" ∧
    (ensure_environment now (Except.ok a) (Except.error e) kp).overall_status = "error" ∧
    (ensure_environment now (Except.ok a) (Except.ok i) (Except.error e)).overall_status =
      "error" := by
  refine ⟨?_, ?_, rfl, rfl, rfl⟩ <;>
  · rw [ensure_environment_ok_eq]
    cases hc : (!a.failed.isEmpty || !i.missing.isEmpty || !k.failed.isEmpty) with
    | false =>
      have hall := (aggregation_condition_iff a i k).mp hc
      simp [hc, hall.1, hall.2.1, hall.2.2]
    | true =>
      have hnot : ¬(a.failed = [] ∧ i.missing = [] ∧ k.failed = []) := by
        intro hall
        rw [(aggregation_condition_iff a i k).mpr hall] at hc
        exact Bool.false_ne_true hc
      simp [hc, hnot]

/-- When some binding carries the role, `addMemberToFirst` rewrites exactly
one position: the first binding with that role gets the member appended
to its member list, every other binding is kept as is. -/
theorem addMemberToFirst_set_spec (role m : String) (bs : List Binding)
    (h : bs.any (fun b => b.role == role) = true) :
    ∃ i, ∃ hi : i < bs.length,
      (bs.get ⟨i, hi⟩).role = role ∧
      addMemberToFirst bs role m =
        bs.set i { role := (bs.get ⟨i, hi⟩).role,
                   members := (bs.get ⟨i, hi⟩).members ++ [m] } := by
  induction bs with
  | nil => simp at h
  | cons b rest ih =>
    cases hb : (b.role == role) with
    | true =>
      refine ⟨0, Nat.succ_pos _, eq_of_beq hb, ?_⟩
      simp [addMemberToFirst, hb, List.set]
    | false =>
      have h' : rest.any (fun b => b.role == role) = true := by
        simpa [List.any_cons, hb] using h
      obtain ⟨i, hi, hrole, heq⟩ := ih h'
      refine ⟨i + 1, Nat.succ_lt_succ hi, hrole, ?_⟩
      simp [addMemberToFirst, hb, List.set]
      exact heq

/-- `addMemberToFirst` never changes how many bindings carry the role. -/
theorem countP_addMemberToFirst (role m : String) (bs : List Binding) :
    (addMemberToFirst bs role m).countP (fun b => b.role == role) =
      bs.countP (fun b => b.role == role) := by
  induction bs with
  | nil => rfl
  | cons b rest ih =>
    cases hb : (b.role == role) with
    | true => simp [addMemberToFirst, hb, List.countP_cons]
    | false => simp [addMemberToFirst, hb, List.countP_cons, ih]

/-- `addMemberToFirst` never changes the number of bindings. -/
theorem length_addMemberToFirst (role m : String) (bs : List Binding) :
    (addMemberToFirst bs role m).length = bs.length := by
  induction bs with
  | nil => rfl
  | cons b rest ih =>
    cases hb : (b.role == role) with
    | true => simp [addMemberToFirst, hb]
    | false => simp [addMemberToFirst, hb, ih]

/-- C3: when the pair `(sa_email, role)` is not yet satisfied, `ensure_role`
returns `true` and issues exactly one whole-policy replace call; when a
binding for the role exists, that write appends the member to the first
such binding (no duplicate binding for the role is created, and the
binding count is unchanged); when none exists, the write appends exactly
one new binding for the role whose member list is exactly the prefixed
principal, so the written policy has exactly one binding for the role. -/
theorem ensure_role_adds_binding_spec (sa_email role : String) (p : IAMPolicy)
    (h : has_role sa_email role p = false) :
    (ensure_role sa_email role (Except.ok p) (Except.ok ())).1 = true ∧
    (ensure_role sa_email role (Except.ok p) (Except.ok ())).2.length = 1 ∧
    (p.bindings.any (fun b => b.role == role) = true →
      ∃ i, ∃ hi : i < p.bindings.length,
        (p.bindings.get ⟨i, hi⟩).role = role ∧
        (ensure_role sa_email role (Except.ok p) (Except.ok ())).2 =
          [{ bindings := p.bindings.set i
              { role := (p.bindings.get ⟨i, hi⟩).role,
                members := (p.bindings.get ⟨i, hi⟩).members ++ [memberFor sa_email] } }] ∧
        (addMemberToFirst p.bindings role (memberFor sa_email)).countP
            (fun b => b.role == role) = p.bindings.countP (fun b => b.role == role) ∧
        (addMemberToFirst p.bindings role (memberFor sa_email)).length =
          p.bindings.length) ∧
    (p.bindings.any (fun b => b.role == role) = false →
      (ensure_role sa_email role (Except.ok p) (Except.ok ())).2 =
        [{ bindings := p.bindings ++ [{ role := role, members := [memberFor sa_email] }] }] ∧
      (p.bindings ++ ([{ role := role, members := [memberFor sa_email] }] : List Binding)).countP
          (fun b => b.role == role) = 1) := by
  simp only [has_role] at h
  have hred : ensure_role sa_email role (Except.ok p) (Except.ok ()) =
      (true,
        [{ bindings :=
            if p.bindings.any (fun b => b.role == role) then
              addMemberToFirst p.bindings role (memberFor sa_email)
            else
              p.bindings ++ [{ role := role, members := [memberFor sa_email] }] }]) := by
    simp only [ensure_role]
    rw [h]
    simp
  refine ⟨by rw [hred], by rw [hred]; rfl, ?_, ?_⟩
  · intro hex
    obtain ⟨i, hi, hrole, heq⟩ := addMemberToFirst_set_spec role (memberFor sa_email)
      p.bindings hex
    refine ⟨i, hi, hrole, ?_, countP_addMemberToFirst role (memberFor sa_email) p.bindings,
      length_addMemberToFirst role (memberFor sa_email) p.bindings⟩
    rw [hred, ← heq]
    simp [hex]
  · intro hex
    have hzero : p.bindings.countP (fun b => b.role == role) = 0 := by
      simp only [List.any_eq_false] at hex
      exact List.countP_eq_zero.mpr (fun b hb => hex b hb)
    constructor
    · rw [hred]
      simp [hex]
    · simp [List.countP_append, hzero, List.countP_cons]

/-- Witness for C3 at a concrete policy whose only binding for the role lacks
the principal. -/
theorem ensure_role_adds_binding_spec_witness :
    (ensure_role "svcB" "R1"
      (Except.ok { bindings := [{ role := "R1", members := ["serviceAccount:svcA"] }] })
      (Except.ok ())).1 = true :=
  (ensure_role_adds_binding_spec "svcB" "R1"
    { bindings := [{ role := "R1", members := ["serviceAccount:svcA"] }] } (by decide)).1

/-- Membership in the set-insertion helper. -/
theorem mem_insertNew (l : List String) (x y : String) :
    y ∈ insertNew l x ↔ y ∈ l ∨ y = x := by
  cases hc : l.contains x with
  | true =>
    have hx : x ∈ l := (string_contains_iff l x).mp hc
    simp only [insertNew, hc, if_true]
    constructor
    · exact fun h => Or.inl h
    · rintro (h | rfl)
      · exact h
      · exact hx
  | false =>
    have hx : ¬ x ∈ l := by simpa using hc
    simp [insertNew, hx]

/-- Membership after the inner discovery loop over one binding's members. -/
theorem mem_sa_members_fold (ms : List String) (acc : List String) (y : String) :
    y ∈ ms.foldl
        (fun acc2 m =>
          if str_starts_with m "serviceAccount:" then
            insertNew acc2 (string_replace m "serviceAccount:" "")
          else
            acc2)
        acc ↔
      y ∈ acc ∨ ∃ m ∈ ms, str_starts_with m "serviceAccount:" = true ∧
        string_replace m "serviceAccount:" "" = y := by
  induction ms generalizing acc with
  | nil => simp
  | cons m ms ih =>
    rw [List.foldl_cons, ih]
    cases hm : str_starts_with m "serviceAccount:" with
    | true =>
      simp only [hm, if_true, mem_insertNew, List.mem_cons]
      aesop
    | false =>
      simp only [hm, List.mem_cons]
      aesop

/-- Membership after the outer discovery loop over all bindings. -/
theorem mem_extract_fold (bs : List Binding) (acc : List String) (y : String) :
    y ∈ bs.foldl
        (fun acc b =>
          b.members.foldl
            (fun acc2 m =>
              if str_starts_with m "serviceAccount:" then
                insertNew acc2 (string_replace m "serviceAccount:" "")
              else
                acc2)
            acc)
        acc ↔
      y ∈ acc ∨ ∃ b ∈ bs, ∃ m ∈ b.members, str_starts_with m "serviceAccount:" = true ∧
        string_replace m "serviceAccount:" "" = y := by
  induction bs generalizing acc with
  | nil => simp
  | cons b rest ih =>
    rw [List.foldl_cons, ih, mem_sa_members_fold]
    simp only [List.mem_cons]
    aesop

/-- The principals `_validate_iam_permissions` discovers are exactly the
members of some binding that carry the `serviceAccount:` marker, with the
marker removed. -/
theorem mem_extract_service_accounts (bs : List Binding) (y : String) :
    y ∈ extract_service_accounts bs ↔
      ∃ b ∈ bs, ∃ m ∈ b.members, str_starts_with m "serviceAccount:" = true ∧
        string_replace m "serviceAccount:" "" = y := by
  have h := mem_extract_fold bs [] y
  simpa [extract_service_accounts] using h

/-- A list permutation-equal to a two-element list of distinct heads is one
of its two orderings. -/
theorem perm_pair_eq (l : List String) (a b : String) (h : List.Perm l [a, b]) :
    l = [a, b] ∨ l = [b, a] := by
  have hlen : l.length = 2 := by simpa using h.length_eq
  obtain ⟨x, y, rfl⟩ : ∃ x y, l = [x, y] := by
    match l, hlen with
    | [x, y], _ => exact ⟨x, y, rfl⟩
  have hx : x ∈ [a, b] := h.mem_iff.mp (List.mem_cons_self x [y])
  rcases List.mem_cons.mp hx with rfl | hx2
  · left
    have h2 : List.Perm [y] [b] := (List.perm_cons x).mp h
    rw [List.perm_singleton.mp h2]
  · have hxb : x = b := by simpa using hx2
    subst hxb
    right
    have h3 : List.Perm [x, y] [x, a] := h.trans (List.Perm.swap x a [])
    have h4 : List.Perm [y] [a] := (List.perm_cons x).mp h3
    rw [List.perm_singleton.mp h4]

/-- C4 (amended): `_validate_iam_permissions` discovers its principals by
scanning every binding's member list, and for each discovered principal
and each critical role produces the entry `"{principal}:{role}"` in
`valid` when the principal holds the role and in `missing` otherwise;
the deterministic model is the order-explicit model at the canonical
enumeration of the discovered set; and on the concrete scenario where
svcA holds only R1 and svcB (bound to an unrelated role) holds neither,
for EVERY enumeration order of the discovered set `{svcA, svcB}` the
valid list is exactly `["svcA:R1"]` and the missing list holds exactly
the entries `"svcA:R2"`, `"svcB:R1"`, `"svcB:R2"` (up to the unspecified
set-iteration order, each principal's roles in critical-role order). -/
theorem validate_iam_permissions_perm_spec :
    (∀ (roles : List String) (p : IAMPolicy) (sa role : String),
      sa ∈ extract_service_accounts p.bindings → role ∈ roles →
      (has_role sa role p = true →
        (sa ++ ":" ++ role) ∈ (validate_iam_permissions roles (Except.ok p)).valid) ∧
      (has_role sa role p = false →
        (sa ++ ":" ++ role) ∈ (validate_iam_permissions roles (Except.ok p)).missing)) ∧
    (∀ (bs : List Binding) (y : String),
      y ∈ extract_service_accounts bs ↔
        ∃ b ∈ bs, ∃ m ∈ b.members, str_starts_with m "serviceAccount:" = true ∧
          string_replace m "serviceAccount:" "" = y) ∧
    (∀ (roles : List String) (p : IAMPolicy),
      validate_iam_permissions roles (Except.ok p) =
        validate_iam_permissions_with_order roles (extract_service_accounts p.bindings) p) ∧
    (∀ sas : List String,
      List.Perm sas
        (extract_service_accounts [{ role := "R1", members := ["serviceAccount:svcA"] },
                                   { role := "R3", members := ["serviceAccount:svcB"] }]) →
      (validate_iam_permissions_with_order ["R1", "R2"] sas
          { bindings := [{ role := "R1", members := ["serviceAccount:svcA"] },
                         { role := "R3", members := ["serviceAccount:svcB"] }] }).valid =
        ["svcA:R1"] ∧
      List.Perm
        (validate_iam_permissions_with_order ["R1", "R2"] sas
          { bindings := [{ role := "R1", members := ["serviceAccount:svcA"] },
                         { role := "R3", members := ["serviceAccount:svcB"] }] }).missing
        ["svcA:R2", "svcB:R1", "svcB:R2"]) := by
  refine ⟨?_, mem_extract_service_accounts, fun roles p => rfl, ?_⟩
  · intro roles p sa role hsa hrole
    constructor
    · intro hhas
      simp only [validate_iam_permissions]
      exact List.mem_flatMap.mpr
        ⟨sa, hsa, List.mem_map.mpr ⟨role, List.mem_filter.mpr ⟨hrole, hhas⟩, rfl⟩⟩
    · intro hnot
      simp only [validate_iam_permissions]
      exact List.mem_flatMap.mpr
        ⟨sa, hsa, List.mem_map.mpr ⟨role, List.mem_filter.mpr ⟨hrole, by simp [hnot]⟩, rfl⟩⟩
  · intro sas hp
    have hex : extract_service_accounts
        [{ role := "R1", members := ["serviceAccount:svcA"] },
         { role := "R3", members := ["serviceAccount:svcB"] }] = ["svcA", "svcB"] := by
      decide
    rw [hex] at hp
    rcases perm_pair_eq sas "svcA" "svcB" hp with rfl | rfl
    · exact ⟨by decide, by decide⟩
    · exact ⟨by decide, by decide⟩

/-- Counterexample to C4 as stated: the svcB-first enumeration is a
permutation of the discovered set `{svcA, svcB}` that the source's
unordered set iteration may produce, and under it the pass computes the
missing list `["svcB:R1", "svcB:R2", "svcA:R2"]`, which is not the exact
list `["svcA:R2", "svcB:R1", "svcB:R2"]` the claim asserts. -/
theorem validate_iam_permissions_exact_order_refuted :
    List.Perm (["svcB", "svcA"] : List String)
      (extract_service_accounts [{ role := "R1", members := ["serviceAccount:svcA"] },
                                 { role := "R3", members := ["serviceAccount:svcB"] }]) ∧
    (validate_iam_permissions_with_order ["R1", "R2"] ["svcB", "svcA"]
        { bindings := [{ role := "R1", members := ["serviceAccount:svcA"] },
                       { role := "R3", members := ["serviceAccount:svcB"] }] }).missing =
      ["svcB:R1", "svcB:R2", "svcA:R2"] ∧
    ¬((validate_iam_permissions_with_order ["R1", "R2"] ["svcB", "svcA"]
        { bindings := [{ role := "R1", members := ["serviceAccount:svcA"] },
                       { role := "R3", members := ["serviceAccount:svcB"] }] }).missing =
      ["svcA:R2", "svcB:R1", "svcB:R2"]) := by
  exact ⟨by decide, by decide, by decide⟩

/-- C10: the membership test, the written member string and principal
discovery all use only the `serviceAccount:`-prefixed member form:
`_has_role` holds exactly when a binding for the role lists the exact
string `"serviceAccount:" ++ email`, discovery only picks up members
carrying that marker, and a principal recorded under another form
(`"user:..."` or a bare email) is neither treated as holding the role nor
discovered — as the concrete policy listing both bare and `user:` forms
shows, where `ensure_role` still appends the prefixed member. -/
theorem service_account_prefix_spec :
    (∀ (sa role : String) (p : IAMPolicy),
      has_role sa role p = true ↔
        ∃ b ∈ p.bindings, b.role = role ∧ ("serviceAccount:" ++ sa) ∈ b.members) ∧
    (∀ (bs : List Binding) (y : String),
      y ∈ extract_service_accounts bs →
        ∃ b ∈ bs, ∃ m ∈ b.members, str_starts_with m "serviceAccount:" = true) ∧
    has_role "bob@x.com" "R1"
      { bindings := [{ role := "R1", members := ["bob@x.com", "user:bob@x.com"] }] } = false ∧
    extract_service_accounts [{ role := "R1", members := ["bob@x.com", "user:bob@x.com"] }]
      = [] ∧
    ensure_role "bob@x.com" "R1"
      (Except.ok { bindings := [{ role := "R1", members := ["bob@x.com", "user:bob@x.com"] }] })
      (Except.ok ()) =
      (true,
        [{ bindings :=
            [{ role := "R1"
               members := ["bob@x.com", "user:bob@x.com", "serviceAccount:bob@x.com"] }] }]) := by
  refine ⟨?_, ?_, by decide, by decide, by decide⟩
  · intro sa role p
    simp [has_role, memberFor, List.any_eq_true, Bool.and_eq_true, beq_iff_eq,
      string_contains_iff]
  · intro bs y hy
    obtain ⟨b, hb, m, hm, hsw, _⟩ := (mem_extract_service_accounts bs y).mp hy
    exact ⟨b, hb, m, hm, hsw⟩

end CloudSentinel
